import Mathlib

/-!
Shallow embedding of the target-control engine of the `dbg` debugger
(`package proc` plus its command layer), together with proofs about its
breakpoint table, thread table, and engine operations.

Modelling conventions:
* Go `uint64` addresses are `Nat` values; subtraction that may wrap is made
  explicit through `usub64`.
* Go maps (`Breakpoints`, `Threads`) are association lists whose key
  uniqueness is carried as an explicit `Nodup` hypothesis where needed.
* Target memory is a total function from address to byte; the ptrace
  read/write primitives are total in this model.
* Go methods that mutate their receiver and return `(value, error)` are
  embedded as functions returning `Except DbgError value × Process`.
* Query functions backed by the debug-info loader (`goSymTable`,
  line tables) are opaque function-valued fields of `Process`.
-/

namespace Dbg

/-- The constant `2 ^ 64`, the modulus of Go's `uint64` arithmetic. -/
def uint64Mod : Nat := 2 ^ 64

/-- Wrapping `uint64` subtraction `a - b`, as computed by Go on `uint64`
operands (used by `FindBreakpoint` for `pc - breakpointSize`). -/
def usub64 (a b : Nat) : Nat := (a + (uint64Mod - b % uint64Mod)) % uint64Mod

/-- Conversion `uint64(i)` of a Go `int` value `i` to `uint64`
(two's-complement wraparound for negative values). -/
def intToUInt64 (i : Int) : Nat := (i % (uint64Mod : Int)).toNat

/-- Target memory: one byte per address. -/
abbrev Mem := Nat → Nat

/-- Embedding of `Thread.readMemory(addr, len)`: the `len` bytes starting at `addr`. -/
def readMem (m : Mem) (addr len : Nat) : List Nat :=
  (List.range len).map fun i => m (addr + i)

/-- Embedding of `Thread.writeMemory(addr, data)`: overwrite the bytes starting at
`addr` with `data`. -/
def writeMem (m : Mem) (addr : Nat) (data : List Nat) : Mem :=
  fun a => if addr ≤ a ∧ a < addr + data.length then data.getD (a - addr) 0 else m a

/-- Association-list lookup, the embedding of a Go map read `l[k]`. -/
def lookupA {β : Type} : List (Nat × β) → Nat → Option β
  | [], _ => none
  | e :: rest, k => if e.1 = k then some e.2 else lookupA rest k

/-- Association-list removal, the embedding of Go's `delete(l, k)`. -/
def eraseA {β : Type} (l : List (Nat × β)) (k : Nat) : List (Nat × β) :=
  l.filter fun e => e.1 != k

/-- The keys of an association list. -/
def keysA {β : Type} (l : List (Nat × β)) : List Nat :=
  l.map fun e => e.1

/-- Breakpoint (part_002 lines 696-716): a software or hardware breakpoint
installed in the target.  `OriginalData` holds the instruction bytes a
software breakpoint overwrote; `reg` is the debug register of a hardware
breakpoint. -/
structure Breakpoint where
  FunctionName : String
  File : String
  Line : Nat
  Addr : Nat
  OriginalData : List Nat
  ID : Int
  Temp : Bool
  Tracepoint : Bool
  Stacktrace : Nat
  Goroutine : Bool
  Variables : List String
  hardware : Bool
  reg : Nat
deriving Repr, DecidableEq

/-- One OS thread of the target (`Thread`).  The body of the heuristic
`Thread.blocked()` and the single-step primitive `Thread.Step()` are not
part of this development, so `blocked` is carried as an abstract boolean
observation and `stepCount` instruments how many step commands the thread
has received. -/
structure Thread where
  ID : Nat
  CurrentBreakpoint : Option Nat
  running : Bool
  blocked : Bool
  singleStepping : Bool
  stepCount : Nat
deriving Repr, DecidableEq

/-- The error taxonomy of the engine: `ManualStopError`,
`ProcessExitedError`, `BreakpointExistsError`, `InvalidAddressError`,
`NoBreakpointError`, `ThreadExitedErr` are the concrete error types of the
source; remaining `fmt.Errorf` errors are folded into `OtherError`. -/
inductive DbgError where
  | ManualStopError : DbgError
  | ProcessExitedError (Pid : Nat) (Status : Int) : DbgError
  | BreakpointExistsError (file : String) (line : Nat) (addr : Nat) : DbgError
  | InvalidAddressError (address : Nat) : DbgError
  | NoBreakpointError (addr : Nat) : DbgError
  | ThreadExitedErr : DbgError
  | GoroutineExitingError (goid : Int) : DbgError
  | OtherError (msg : String) : DbgError
deriving Repr, DecidableEq

/-- Process (part_001 lines 329-359): the root aggregate.  The architecture
descriptor (`arch`) is inlined as the `arch*` fields; the debug-info
artifacts are inlined as the opaque query functions `pcToLine`,
`lookupFunc`, `lineToPC`, `absPath`.  `CurrentThread`, a pointer into the
`Threads` map in the source, is represented by the key of the referenced
thread. -/
structure Process where
  Pid : Nat
  Breakpoints : List (Nat × Breakpoint)
  Threads : List (Nat × Thread)
  CurrentThread : Option Nat
  breakpointIDCounter : Int
  tempBreakpointIDCounter : Int
  running : Bool
  halt : Bool
  exited : Bool
  singleStepping : Bool
  archBreakpointSize : Nat
  archBreakpointInstruction : List Nat
  archHardwareBreakpointUsage : List Bool
  goos : String
  pcToLine : Nat → Option (String × Nat × String)
  lookupFunc : String → Option Nat
  lineToPC : String → Int → Option Nat
  absPath : String → String
  mem : Mem

/-- Modelled from the spec: the AMD64 architecture descriptor
(`AMD64Arch()`, not under src/): breakpoint instruction `0xCC`, breakpoint
size 1 byte, four hardware debug registers, all initially free. -/
def AMD64BreakpointInstruction : List Nat := [0xCC]

/-- Modelled from the spec: breakpoint-instruction length on x86-64. -/
def AMD64BreakpointSize : Nat := 1

/-- Modelled from the spec: the hardware-debug-register usage vector of
x86-64 (four debug registers, all free at startup). -/
def AMD64HardwareBreakpointUsage : List Bool := [false, false, false, false]

/-- Embedding of `New(pid)` (part_001 lines 361-374): a fresh `Process` with empty
breakpoint and thread tables and both ID counters at zero.  The
architecture and debug-info fields are filled by
`initializeDebugProcess` / `LoadInformation`; here they start empty. -/
def New (pid : Nat) : Process :=
  { Pid := pid
    Breakpoints := []
    Threads := []
    CurrentThread := none
    breakpointIDCounter := 0
    tempBreakpointIDCounter := 0
    running := false
    halt := false
    exited := false
    singleStepping := false
    archBreakpointSize := 0
    archBreakpointInstruction := []
    archHardwareBreakpointUsage := []
    goos := "linux"
    pcToLine := fun _ => none
    lookupFunc := fun _ => none
    lineToPC := fun _ _ => none
    absPath := fun s => s
    mem := fun _ => 0 }

/-- Embedding of `Process.FindBreakpoint(pc)` (part_001 lines 843-857): look for a
software breakpoint at `pc - arch.BreakpointSize()` first, then for a
hardware breakpoint at `pc` itself. -/
def Process.FindBreakpoint (dbp : Process) (pc : Nat) : Option Breakpoint :=
  match lookupA dbp.Breakpoints (usub64 pc dbp.archBreakpointSize) with
  | some bp => some bp
  | none => lookupA dbp.Breakpoints pc

/-- Embedding of `Process.FindBreakpointByID(id)` (part_001 lines 833-840). -/
def Process.FindBreakpointByID (dbp : Process) (id : Int) : Option Breakpoint :=
  (dbp.Breakpoints.find? fun e => e.2.ID == id).map fun e => e.2

/-- The hardware-slot scan of `setBreakpoint` (part_002 lines 786-810):
the first free hardware debug register, or `none` when every register is
used or the platform is darwin (hardware breakpoints unimplemented there,
the loop breaks out immediately). -/
def Process.freeHardwareSlot (dbp : Process) : Option Nat :=
  if dbp.goos == "darwin" then none
  else List.findIdx? (fun u => !u) dbp.archHardwareBreakpointUsage

/-- Embedding of `Process.writeSoftwareBreakpoint(thread, addr)` (part_002 lines
827-830): overwrite the instruction at `addr` with the architecture's
breakpoint opcode. -/
def Process.writeSoftwareBreakpoint (dbp : Process) (addr : Nat) : Process :=
  { dbp with mem := writeMem dbp.mem addr dbp.archBreakpointInstruction }

/-- Embedding of `Process.setBreakpoint(tid, addr, temp)` (part_002 lines 759-825).
Duplicate check through `FindBreakpoint`, `PCToLine` resolution, ID
allocation from the user or temporary counter, then hardware installation
when a debug register is free (the transient halt/resume of running
threads is a pair of trace primitives with no lasting observable state in
this model) and otherwise the software fallback that saves the original
bytes before writing the breakpoint opcode. -/
def Process.setBreakpoint (dbp : Process) (tid : Nat) (addr : Nat) (temp : Bool) :
    Except DbgError Breakpoint × Process :=
  match dbp.FindBreakpoint addr with
  | some bp => (.error (.BreakpointExistsError bp.File bp.Line bp.Addr), dbp)
  | none =>
    match dbp.pcToLine addr with
    | none => (.error (.InvalidAddressError addr), dbp)
    | some (f, l, fnName) =>
      let dbp1 := if temp
        then { dbp with tempBreakpointIDCounter := dbp.tempBreakpointIDCounter + 1 }
        else { dbp with breakpointIDCounter := dbp.breakpointIDCounter + 1 }
      let id := if temp then dbp1.tempBreakpointIDCounter else dbp1.breakpointIDCounter
      let newBreakpoint : Breakpoint :=
        { FunctionName := fnName
          File := f
          Line := l
          Addr := addr
          OriginalData := []
          ID := id
          Temp := temp
          Tracepoint := false
          Stacktrace := 0
          Goroutine := false
          Variables := []
          hardware := false
          reg := 0 }
      match dbp1.freeHardwareSlot with
      | some i =>
        let bp := { newBreakpoint with hardware := true, reg := i }
        (.ok bp,
          { dbp1 with
              archHardwareBreakpointUsage := dbp1.archHardwareBreakpointUsage.set i true
              Breakpoints := (addr, bp) :: dbp1.Breakpoints })
      | none =>
        let originalData := readMem dbp1.mem addr dbp1.archBreakpointSize
        let dbp2 := dbp1.writeSoftwareBreakpoint addr
        let bp := { newBreakpoint with OriginalData := originalData }
        (.ok bp, { dbp2 with Breakpoints := (addr, bp) :: dbp2.Breakpoints })

/-- Embedding of `Process.SetBreakpoint(addr)` (part_001 lines 528-530): a user
breakpoint on the current thread. -/
def Process.SetBreakpoint (dbp : Process) (addr : Nat) :
    Except DbgError Breakpoint × Process :=
  dbp.setBreakpoint (match dbp.CurrentThread with | some tid => tid | none => 0) addr false

/-- Embedding of `Process.SetTempBreakpoint(addr)` (part_001 lines 533-535): a
temporary breakpoint for the `next` command. -/
def Process.SetTempBreakpoint (dbp : Process) (addr : Nat) :
    Except DbgError Breakpoint × Process :=
  dbp.setBreakpoint (match dbp.CurrentThread with | some tid => tid | none => 0) addr true

/-- Embedding of `Breakpoint.Clear(thread)` (part_002 lines 722-735): disarm the debug
register for a hardware breakpoint (a trace primitive with no lasting
state in this model), or write the saved original bytes back for a
software breakpoint.  The entry is not removed from the table here. -/
def Breakpoint.Clear (bp : Breakpoint) (dbp : Process) :
    Except DbgError Breakpoint × Process :=
  if bp.hardware then
    (.ok bp, dbp)
  else
    (.ok bp, { dbp with mem := writeMem dbp.mem bp.Addr bp.OriginalData })

/-- Modelled from the spec: `Process.clearBreakpoint(tid, addr)` is not
under src/ (only its wrapper `ClearBreakpoint` and callers are).  Spec
§4.4: `clear(addr)` is the inverse of `set` — restore original bytes for
software or release the hardware slot and disarm; the entry leaves the
table (the test `TestClearBreakpointBreakpoint` checks
`len(p.Breakpoints) == 0` afterwards).  Fails with `NoBreakpointError`
when no breakpoint is installed at `addr`. -/
def Process.clearBreakpoint (dbp : Process) (tid : Nat) (addr : Nat) :
    Except DbgError Breakpoint × Process :=
  let _ := tid
  match lookupA dbp.Breakpoints addr with
  | none => (.error (.NoBreakpointError addr), dbp)
  | some bp =>
    match bp.Clear dbp with
    | (.error e, dbp1) => (.error e, dbp1)
    | (.ok bp1, dbp1) =>
      let dbp2 := if bp1.hardware
        then { dbp1 with
                 archHardwareBreakpointUsage :=
                   dbp1.archHardwareBreakpointUsage.set bp1.reg false }
        else dbp1
      (.ok bp1, { dbp2 with Breakpoints := eraseA dbp2.Breakpoints addr })

/-- Embedding of `Process.ClearBreakpoint(addr)` (part_001 lines 547-549): clear a
breakpoint in the current thread. -/
def Process.ClearBreakpoint (dbp : Process) (addr : Nat) :
    Except DbgError Breakpoint × Process :=
  dbp.clearBreakpoint (match dbp.CurrentThread with | some tid => tid | none => 0) addr

/-- The loop of `Process.clearTempBreakpoints` (part_001 lines 896-906): it iterates the
breakpoint table and clears every entry whose `Temp` flag is set; this
helper is the loop body, recursing over the snapshot of entries the Go
`range` visits.  An error from `ClearBreakpoint` aborts the loop. -/
def Process.clearTempLoop (dbp : Process) :
    List (Nat × Breakpoint) → Option DbgError × Process
  | [] => (none, dbp)
  | (addr, bp) :: rest =>
    if bp.Temp then
      match dbp.ClearBreakpoint addr with
      | (.error e, dbp1) => (some e, dbp1)
      | (.ok _, dbp1) => dbp1.clearTempLoop rest
    else dbp.clearTempLoop rest

/-- Embedding of `Process.clearTempBreakpoints()` (part_001 lines 896-906). -/
def Process.clearTempBreakpoints (dbp : Process) : Option DbgError × Process :=
  dbp.clearTempLoop dbp.Breakpoints

/-- The primitive `Thread.Halt()` (not under src/): request a stop
and wait for it; in this model it marks the thread as not running. -/
def Thread.Halt (th : Thread) : Thread :=
  { th with running := false }

/-- The single-step trace primitive `Thread.Step()` (not under src/);
`stepCount` instruments how many step commands the thread received. -/
def Thread.Step (th : Thread) : Thread :=
  { th with stepCount := th.stepCount + 1 }

/-- The continue-one-thread trace primitive `Thread.Continue()` (not
under src/); in this model it marks the thread as running. -/
def Thread.Continue (th : Thread) : Thread :=
  { th with running := true }

/-- Embedding of `Process.Halt()` (part_001 lines 782-789): halt every thread. -/
def Process.Halt (dbp : Process) : Option DbgError × Process :=
  (none, { dbp with Threads := dbp.Threads.map fun e => (e.1, e.2.Halt) })

/-- Embedding of `Process.SwitchThread(tid)` (part_001 lines 722-729): make `tid` the
current thread when it is in the threads map, fail otherwise. -/
def Process.SwitchThread (dbp : Process) (tid : Nat) : Option DbgError × Process :=
  match lookupA dbp.Threads tid with
  | some _ => (none, { dbp with CurrentThread := some tid })
  | none => (some (.OtherError "thread does not exist"), dbp)

/-- Modelled from the spec: `Process.SetActiveThread` is not under src/
(called by `addThread`, part_001 line 121); it assigns the current-thread
selection. -/
def Process.SetActiveThread (dbp : Process) (tid : Nat) : Process :=
  { dbp with CurrentThread := some tid }

/-- Embedding of `Process.addThread(tid, attach)` (part_001 lines 75-124): return the
existing thread when `tid` is already traced; otherwise attach (the
ptrace attach/wait/set-options calls are trace primitives, total in this
model), record the new thread in the map, and make it the current thread
when none is selected yet. -/
def Process.addThread (dbp : Process) (tid : Nat) (attach : Bool) :
    Except DbgError Thread × Process :=
  let _ := attach
  match lookupA dbp.Threads tid with
  | some thread => (.ok thread, dbp)
  | none =>
    let newthread : Thread :=
      { ID := tid
        CurrentBreakpoint := none
        running := false
        blocked := false
        singleStepping := false
        stepCount := 0 }
    let dbp1 := { dbp with Threads := (tid, newthread) :: dbp.Threads }
    let dbp2 := if dbp1.CurrentThread = none then dbp1.SetActiveThread tid else dbp1
    (.ok newthread, dbp2)

/-- The thread-removal step of the wait loop (part_001 lines 179-189 and
213-228): when a traced thread other than the group leader exits, it is
deleted from the threads map; the current-thread selection is not
updated. -/
def Process.waitRemoveExitedThread (dbp : Process) (wpid : Nat) : Process :=
  { dbp with Threads := eraseA dbp.Threads wpid }

/-- Pre-processing of `Process.run(fn)` before `fn` runs (part_001 lines
946-950): set the running flag, reset the manual-halt flag, and erase the
current-breakpoint record of every thread. -/
def Process.runPrelude (dbp : Process) : Process :=
  { dbp with
      running := true
      halt := false
      Threads := dbp.Threads.map fun e => (e.1, { e.2 with CurrentBreakpoint := none }) }

/-- Embedding of `Process.run(fn)` (part_001 lines 942-958): refuse when the process
has exited; otherwise run `fn` after the prelude, restore the running
flag on every exit path, and return `fn`'s error — except that a
`ManualStopError` is swallowed and replaced by success. -/
def Process.run (dbp : Process) (fn : Process → Option DbgError × Process) :
    Option DbgError × Process :=
  if dbp.exited then (some (.OtherError "process has already exited"), dbp)
  else
    let r := fn dbp.runPrelude
    let dbp1 := { r.2 with running := false }
    match r.1 with
    | some .ManualStopError => (none, dbp1)
    | some e => (some e, dbp1)
    | none => (none, dbp1)

/-- Embedding of `Process.next()` (part_001 lines 570-634).  The work between the
deferred cleanup and the final `Halt` — `setChanRecvBreakpoints`,
`getG`, the temporary breakpoints installed for the deferred call and for
each thread's next source lines, and the continue/trapWait loop — relies
on goroutine-inspection code that is not part of this development; it is
abstracted as `body`, an arbitrary transformer of the process state that
may install temporary breakpoints and may fail.  The structure kept from
the source is what decides the cleanup property: `defer
dbp.clearTempBreakpoints()` runs whether the body fails or reaches the
final `return dbp.Halt()`, and the cleanup's own error is discarded. -/
def Process.next (dbp : Process) (body : Process → Option DbgError × Process) :
    Option DbgError × Process :=
  let r := match body dbp with
    | (some e, p) => (some e, p)
    | (none, p) => p.Halt
  (r.1, r.2.clearTempBreakpoints.2)

/-- Embedding of `Process.Next()` (part_001 lines 566-568): `next` wrapped in `run`. -/
def Process.Next (dbp : Process) (body : Process → Option DbgError × Process) :
    Option DbgError × Process :=
  dbp.run fun p => p.next body

/-- Embedding of `Process.Step()` (part_001 lines 701-719): set the single-stepping
flag, step every thread whose `blocked()` heuristic is false, reset the
flag, all wrapped in `run`. -/
def Process.Step (dbp : Process) : Option DbgError × Process :=
  dbp.run fun p =>
    let p1 := { p with singleStepping := true }
    let p2 := { p1 with
                  Threads := p1.Threads.map fun (e : Nat × Thread) =>
                    if e.2.blocked then e else (e.1, e.2.Step) }
    (none, { p2 with singleStepping := false })

/-- The event `trapWait` observes when the engine waits after resuming
the target: the whole process exited with a status, a thread stopped, or
the user requested a manual stop. -/
inductive TrapOutcome where
  | exited (status : Int)
  | stopped (tid : Nat)
  | manualStop
deriving Repr, DecidableEq

/-- Modelled from the spec: `Process.trapWait` is not under src/ (only
its callers `resume` and `next` are).  Per §4.1 `wait_event` and the §7
taxonomy it reports a target exit as a `TargetExited` error carrying the
process id and the wait-status exit code (marking the process exited), a
manual stop as `ManualStopError`, and otherwise hands back the stopped
thread. -/
def Process.trapWait (dbp : Process) (outcome : TrapOutcome) :
    Except DbgError Nat × Process :=
  match outcome with
  | .exited status => (.error (.ProcessExitedError dbp.Pid status), { dbp with exited := true })
  | .stopped tid => (.ok tid, dbp)
  | .manualStop => (.error .ManualStopError, dbp)

/-- Embedding of `Process.resume()` (part_001 lines 671-698): wait for a trap; on
error propagate it; otherwise switch to the stopping thread if it is not
current, and stop.  (In the source the guard `dbp.CurrentBreakpoint !=
nil || dbp.halt` compares a method value against nil, which is always
true in Go, so the stopped path always returns `dbp.Halt()`.) -/
def Process.resume (dbp : Process) (outcome : TrapOutcome) :
    Option DbgError × Process :=
  match dbp.trapWait outcome with
  | (.error e, dbp1) => (some e, dbp1)
  | (.ok tid, dbp1) =>
    let dbp2 := if dbp1.CurrentThread ≠ some tid then (dbp1.SwitchThread tid).2 else dbp1
    dbp2.Halt

/-- Embedding of `Process.Continue()` (part_001 lines 661-669): issue the
continue-thread primitive on every thread, then `run(resume)`.  The trap
event the subsequent wait observes is passed in as `outcome`. -/
def Process.Continue (dbp : Process) (outcome : TrapOutcome) :
    Option DbgError × Process :=
  let dbp1 := { dbp with Threads := dbp.Threads.map fun (e : Nat × Thread) => (e.1, e.2.Continue) }
  dbp1.run fun p => p.resume outcome

/-- Embedding of `initializeDebugProcess` (part_001 lines 860-894): attach when
requested, load the debug information (the loaded artifacts are the
opaque query-function fields, passed through unchanged here), update the
thread list, and select the AMD64 architecture descriptor. -/
def initializeDebugProcess (dbp : Process) : Process :=
  { dbp with
      archBreakpointSize := AMD64BreakpointSize
      archBreakpointInstruction := AMD64BreakpointInstruction
      archHardwareBreakpointUsage := AMD64HardwareBreakpointUsage }

/-- Embedding of `Launch(cmd)` (part_001 lines 43-66): spawn the target with trace-me
semantics (the child's OS pid is `childPid`), wait for the initial stop,
and initialize the debug process. -/
def Launch (childPid : Nat) : Process :=
  initializeDebugProcess { New 0 with Pid := childPid }

/-- The digit value of a character as Go's `strconv` computes it:
`'0'..'9'`, then `'a'..'z'` and `'A'..'Z'` as 10..35. -/
def goDigitVal (c : Char) : Option Nat :=
  if 48 ≤ c.toNat ∧ c.toNat ≤ 57 then some (c.toNat - 48)
  else if 97 ≤ c.toNat ∧ c.toNat ≤ 122 then some (c.toNat - 97 + 10)
  else if 65 ≤ c.toNat ∧ c.toNat ≤ 90 then some (c.toNat - 65 + 10)
  else none

/-- The digit loop of Go's `strconv.ParseUint`: accumulate the digits of
`cs` in the given base into `acc`, failing on any character that is not a
digit below the base.  (Go's overflow checks are applied afterwards by
the callers; the accepted strings coincide because the accumulated value
only grows.) -/
def goParseDigits (base : Nat) : List Char → Nat → Option Nat
  | [], acc => some acc
  | c :: rest, acc =>
    match goDigitVal c with
    | none => none
    | some v => if v < base then goParseDigits base rest (acc * base + v) else none

/-- Go's 64-bit range check: `strconv` fails with `ErrRange` when the
value does not fit in a `uint64`. -/
def fitsUint64 : Option Nat → Option Nat
  | some n => if n < uint64Mod then some n else none
  | none => none

/-- Embedding of `strconv.ParseUint(s, 0, 64)` as called by `FindLocation` (part_001
line 488): with base 0 the prefix selects the base — `0x`/`0X` means
hexadecimal, a leading `0` means octal, otherwise decimal — and the
value must fit in 64 bits.  Returns `none` exactly when Go returns a
non-nil error. -/
def goParseUint0 (s : String) : Option Nat :=
  match s.toList with
  | [] => none
  | '0' :: x :: rest =>
    if x = 'x' ∨ x = 'X' then
      match rest with
      | [] => none
      | _ :: _ => fitsUint64 (goParseDigits 16 rest 0)
    else fitsUint64 (goParseDigits 8 ('0' :: x :: rest) 0)
  | ['0'] => fitsUint64 (goParseDigits 8 ['0'] 0)
  | cs => fitsUint64 (goParseDigits 10 cs 0)

/-- Embedding of `strings.ContainsRune(s, c)` as called by `FindLocation` (part_001
line 461) to recognize a `file:line` location. -/
def containsRune (s : String) (c : Char) : Bool :=
  s.toList.contains c

/-- Embedding of `strconv.Atoi(s)` as called by `FindLocation` for the line number of
a `file:line` location: optional sign, decimal digits, 64-bit signed
range. -/
def goAtoi (s : String) : Option Int :=
  let core : List Char → Bool → Option Int := fun cs neg =>
    match cs with
    | [] => none
    | _ :: _ =>
      match goParseDigits 10 cs 0 with
      | none => none
      | some n =>
        if neg then (if n ≤ 2 ^ 63 then some (-(n : Int)) else none)
        else (if n < 2 ^ 63 then some (n : Int) else none)
  match s.toList with
  | '+' :: cs => core cs false
  | '-' :: cs => core cs true
  | cs => core cs false

/-- Embedding of `Process.FindLocation(str)` (part_001 lines 459-501): a location
string is resolved as `file:line` when it contains a colon, else as a
function name, else parsed as a number that names a breakpoint ID when
some breakpoint has that ID and is otherwise used as a raw instruction
address. -/
def Process.FindLocation (dbp : Process) (str : String) : Except DbgError Nat :=
  if containsRune str ':' then
    let fl := str.splitOn ":"
    let fileName := dbp.absPath (fl.headD "")
    match goAtoi (fl.getD 1 "") with
    | none => .error (.OtherError "parsing line number failed")
    | some line =>
      match dbp.lineToPC fileName line with
      | none => .error (.OtherError "line not found")
      | some pc => .ok pc
  else
    match dbp.lookupFunc str with
    | some entry => .ok entry
    | none =>
      match goParseUint0 str with
      | none => .error (.OtherError ("unable to find location for " ++ str))
      | some id =>
        match dbp.Breakpoints.find? (fun e => intToUInt64 e.2.ID == id) with
        | some e => .ok e.2.Addr
        | none => .ok id

/-- Does a `setBreakpoint` result carry a `BreakpointExistsError`? -/
def isBreakpointExistsResult : Except DbgError Breakpoint × Process → Bool
  | (.error (.BreakpointExistsError _ _ _), _) => true
  | _ => false

/-- Does the current-thread selection refer to a member of the threads
map?  This is the invariant `current_thread ∈ threads` of the data
model. -/
def Process.currentThreadOK (dbp : Process) : Bool :=
  match dbp.CurrentThread with
  | none => true
  | some tid => (lookupA dbp.Threads tid).isSome

/-- A breakpoint-manager operation: one `setBreakpoint` or one
`ClearBreakpoint` call over the lifetime of a `Process`. -/
inductive BpOp where
  | set (tid addr : Nat) (temp : Bool)
  | clear (addr : Nat)

/-- Apply one breakpoint-manager operation; the second component is the
ghost log of `(ID, Temp)` pairs of every breakpoint ever created. -/
def applyBpOp : Process × List (Int × Bool) → BpOp → Process × List (Int × Bool)
  | s, .set tid addr temp =>
    match s.1.setBreakpoint tid addr temp with
    | (.ok bp, p1) => (p1, s.2 ++ [(bp.ID, bp.Temp)])
    | (.error _, p1) => (p1, s.2)
  | s, .clear addr => ((s.1.ClearBreakpoint addr).2, s.2)

/-- Run a sequence of breakpoint-manager operations from a process with
an empty creation log. -/
def runBpOps (p : Process) (ops : List BpOp) : Process × List (Int × Bool) :=
  ops.foldl applyBpOp (p, [])

/-- The IDs of the user (non-temporary) breakpoints in a creation log. -/
def userIDs (created : List (Int × Bool)) : List Int :=
  (created.filter fun e => !e.2).map fun e => e.1

/-- The IDs of the temporary breakpoints in a creation log. -/
def tempIDs (created : List (Int × Bool)) : List Int :=
  (created.filter fun e => e.2).map fun e => e.1

/-- Invariant tying the creation log to the two ID counters: every logged
ID is bounded by its counter and each domain's IDs are strictly
increasing in creation order. -/
def bpIdInvariant (s : Process × List (Int × Bool)) : Prop :=
  (∀ i ∈ userIDs s.2, i ≤ s.1.breakpointIDCounter)
  ∧ (∀ i ∈ tempIDs s.2, i ≤ s.1.tempBreakpointIDCounter)
  ∧ (userIDs s.2).Pairwise (· < ·)
  ∧ (tempIDs s.2).Pairwise (· < ·)

/-- Fixture breakpoint for the concrete witnesses below. -/
def testBreakpoint (addr : Nat) (id : Int) (temp : Bool) : Breakpoint :=
  { FunctionName := "main.main"
    File := "main.go"
    Line := 10
    Addr := addr
    OriginalData := [0x90]
    ID := id
    Temp := temp
    Tracepoint := false
    Stacktrace := 0
    Goroutine := false
    Variables := []
    hardware := false
    reg := 0 }

/-- Fixture thread for the concrete witnesses below. -/
def testThread (tid : Nat) (b : Bool) : Thread :=
  { ID := tid
    CurrentBreakpoint := none
    running := false
    blocked := b
    singleStepping := false
    stepCount := 0 }

/-- Fixture process: a launched amd64/linux target with two threads (the
second blocked in runtime code) and a resolvable symbol table. -/
def testProcess : Process :=
  { Launch 42 with
      Threads := [(1, testThread 1 false), (2, testThread 2 true)]
      CurrentThread := some 1
      pcToLine := fun _ => some ("main.go", 10, "main.main")
      mem := fun a => (a + 7) % 256 }

/-- Fixture process on darwin, where `setBreakpoint` always takes the
software-breakpoint fallback. -/
def testProcessDarwin : Process :=
  { testProcess with goos := "darwin" }

/-- Fixture process with one user breakpoint installed at address 100. -/
def testProcessWithBp : Process :=
  { testProcess with Breakpoints := [(100, testBreakpoint 100 1 false)] }

/-- Fixture process built by the engine's own thread operations: threads
1 and 2 added, thread 2 selected as current. -/
def testProcessTwoThreads : Process :=
  ((((New 1).addThread 1 false).2.addThread 2 true).2.SwitchThread 2).2

/-- A `run` body that fails with `ThreadExitedErr` (used to witness that
non-manual-stop errors are surfaced). -/
def threadExitedBody : Process → Option DbgError × Process :=
  fun p => (some .ThreadExitedErr, p)

/-- A `next` body that installs one temporary breakpoint at address 100
and then fails (used to witness the deferred cleanup). -/
def tempThenFailBody : Process → Option DbgError × Process :=
  fun p => (some .ThreadExitedErr, (p.SetTempBreakpoint 100).2)

theorem keysA_cons {β : Type} (e : Nat × β) (l : List (Nat × β)) :
    keysA (e :: l) = e.1 :: keysA l := rfl

theorem lookupA_isSome_iff {β : Type} (l : List (Nat × β)) (k : Nat) :
    (lookupA l k).isSome = true ↔ k ∈ keysA l := by
  induction l with
  | nil => simp [lookupA, keysA]
  | cons e rest ih =>
    by_cases h : e.1 = k
    · simp [lookupA, keysA_cons, h]
    · simp [lookupA, keysA_cons, h, ih]
      exact fun hk => (h hk.symm).elim

theorem lookupA_eq_none_iff {β : Type} (l : List (Nat × β)) (k : Nat) :
    lookupA l k = none ↔ k ∉ keysA l := by
  rw [← lookupA_isSome_iff]
  cases lookupA l k <;> simp

theorem lookupA_some_mem {β : Type} {l : List (Nat × β)} {k : Nat} {b : β}
    (h : lookupA l k = some b) : (k, b) ∈ l := by
  induction l with
  | nil => simp [lookupA] at h
  | cons e rest ih =>
    by_cases he : e.1 = k
    · simp [lookupA, he] at h
      subst he
      simp [← h]
    · simp [lookupA, he] at h
      exact List.mem_cons_of_mem _ (ih h)

theorem lookupA_of_mem_nodup {β : Type} {l : List (Nat × β)} {k : Nat} {b : β}
    (hnd : (keysA l).Nodup) (h : (k, b) ∈ l) : lookupA l k = some b := by
  induction l with
  | nil => simp at h
  | cons e rest ih =>
    rw [keysA_cons, List.nodup_cons] at hnd
    rcases List.mem_cons.mp h with h1 | h1
    · subst h1
      simp [lookupA]
    · have hne : e.1 ≠ k := by
        intro hek
        exact hnd.1 (hek ▸ (by simpa [keysA] using List.mem_map_of_mem (fun x => x.1) h1))
      simp [lookupA, hne]
      exact ih hnd.2 h1

theorem mem_eraseA {β : Type} {l : List (Nat × β)} {k : Nat} {e : Nat × β} :
    e ∈ eraseA l k ↔ e ∈ l ∧ e.1 ≠ k := by
  simp [eraseA, List.mem_filter]

theorem keysA_eraseA_nodup {β : Type} {l : List (Nat × β)} {k : Nat}
    (h : (keysA l).Nodup) : (keysA (eraseA l k)).Nodup := by
  unfold keysA at h
  unfold keysA eraseA
  exact h.sublist ((List.filter_sublist l).map fun e => e.1)

theorem eraseA_cons {β : Type} (e : Nat × β) (l : List (Nat × β)) (k : Nat) :
    eraseA (e :: l) k = if e.1 = k then eraseA l k else e :: eraseA l k := by
  by_cases h : e.1 = k <;> simp [eraseA, List.filter_cons, h]

theorem lookupA_eraseA_ne {β : Type} (l : List (Nat × β)) (k a : Nat) (h : a ≠ k) :
    lookupA (eraseA l k) a = lookupA l a := by
  induction l with
  | nil => rfl
  | cons e rest ih =>
    rw [eraseA_cons]
    by_cases hek : e.1 = k
    · rw [if_pos hek, ih]
      have hea : e.1 ≠ a := by
        rw [hek]
        exact fun hka => h hka.symm
      simp [lookupA, hea]
    · rw [if_neg hek]
      by_cases hea : e.1 = a
      · simp [lookupA, hea]
      · simp [lookupA, hea, ih]

theorem readMem_length (m : Mem) (addr n : Nat) : (readMem m addr n).length = n := by
  simp [readMem]

theorem writeMem_roundtrip (m : Mem) (addr : Nat) (d : List Nat) (n : Nat)
    (hlen : d.length = n) (a : Nat) :
    writeMem (writeMem m addr d) addr (readMem m addr n) a = m a := by
  simp only [writeMem, readMem, List.length_map, List.length_range, hlen]
  by_cases h : addr ≤ a ∧ a < addr + n
  · have hi : a - addr < n := by omega
    rw [if_pos h, List.getD_eq_getElem?_getD, List.getElem?_map, List.getElem?_range hi]
    simp only [Option.map_some', Option.getD_some]
    congr 1
    omega
  · rw [if_neg h, if_neg h]

theorem findBreakpoint_eq_none_iff (dbp : Process) (pc : Nat) :
    dbp.FindBreakpoint pc = none ↔
      lookupA dbp.Breakpoints (usub64 pc dbp.archBreakpointSize) = none
      ∧ lookupA dbp.Breakpoints pc = none := by
  unfold Process.FindBreakpoint
  cases h : lookupA dbp.Breakpoints (usub64 pc dbp.archBreakpointSize) <;> simp [h]

theorem findBreakpoint_isSome_iff (dbp : Process) (pc : Nat) :
    (dbp.FindBreakpoint pc).isSome = true ↔
      usub64 pc dbp.archBreakpointSize ∈ keysA dbp.Breakpoints
      ∨ pc ∈ keysA dbp.Breakpoints := by
  unfold Process.FindBreakpoint
  cases h : lookupA dbp.Breakpoints (usub64 pc dbp.archBreakpointSize) with
  | none =>
    have h1 := (lookupA_eq_none_iff dbp.Breakpoints (usub64 pc dbp.archBreakpointSize)).mp h
    simp [lookupA_isSome_iff, h1]
  | some bp =>
    have h1 : usub64 pc dbp.archBreakpointSize ∈ keysA dbp.Breakpoints :=
      (lookupA_isSome_iff _ _).mp (by simp [h])
    simp [h1]

theorem freeHardwareSlot_tempCounter (dbp : Process) (x : Int) :
    Process.freeHardwareSlot { dbp with tempBreakpointIDCounter := x }
      = dbp.freeHardwareSlot := rfl

theorem freeHardwareSlot_userCounter (dbp : Process) (x : Int) :
    Process.freeHardwareSlot { dbp with breakpointIDCounter := x }
      = dbp.freeHardwareSlot := rfl

theorem setBreakpoint_shape (dbp : Process) (tid addr : Nat) (temp : Bool) :
    (∃ bp0, dbp.FindBreakpoint addr = some bp0 ∧
      dbp.setBreakpoint tid addr temp
        = (.error (.BreakpointExistsError bp0.File bp0.Line bp0.Addr), dbp))
    ∨ (dbp.FindBreakpoint addr = none ∧ dbp.pcToLine addr = none ∧
      dbp.setBreakpoint tid addr temp = (.error (.InvalidAddressError addr), dbp))
    ∨ (∃ bp, dbp.FindBreakpoint addr = none
        ∧ (dbp.setBreakpoint tid addr temp).1 = .ok bp
        ∧ bp.Temp = temp
        ∧ bp.Addr = addr
        ∧ bp.ID = (if temp then dbp.tempBreakpointIDCounter + 1
                   else dbp.breakpointIDCounter + 1)
        ∧ (dbp.setBreakpoint tid addr temp).2.Breakpoints = (addr, bp) :: dbp.Breakpoints
        ∧ (dbp.setBreakpoint tid addr temp).2.breakpointIDCounter
            = (if temp then dbp.breakpointIDCounter else dbp.breakpointIDCounter + 1)
        ∧ (dbp.setBreakpoint tid addr temp).2.tempBreakpointIDCounter
            = (if temp then dbp.tempBreakpointIDCounter + 1
               else dbp.tempBreakpointIDCounter)
        ∧ (bp.hardware = false →
            bp.OriginalData = readMem dbp.mem addr dbp.archBreakpointSize
            ∧ (dbp.setBreakpoint tid addr temp).2.mem
                = writeMem dbp.mem addr dbp.archBreakpointInstruction)
        ∧ (dbp.freeHardwareSlot = none → bp.hardware = false)) := by
  cases hfb : dbp.FindBreakpoint addr with
  | some bp0 =>
    refine Or.inl ⟨bp0, rfl, ?_⟩
    simp [Process.setBreakpoint, hfb]
  | none =>
    cases hpc : dbp.pcToLine addr with
    | none =>
      refine Or.inr (Or.inl ⟨rfl, rfl, ?_⟩)
      simp [Process.setBreakpoint, hfb, hpc]
    | some t =>
      obtain ⟨f, l, fn⟩ := t
      cases temp with
      | true =>
        cases hslot : dbp.freeHardwareSlot with
        | some i =>
          refine Or.inr (Or.inr ?_)
          simp [Process.setBreakpoint, Process.writeSoftwareBreakpoint, hfb, hpc, hslot,
            freeHardwareSlot_tempCounter, freeHardwareSlot_userCounter]
        | none =>
          refine Or.inr (Or.inr ?_)
          simp [Process.setBreakpoint, Process.writeSoftwareBreakpoint, hfb, hpc, hslot,
            freeHardwareSlot_tempCounter, freeHardwareSlot_userCounter]
      | false =>
        cases hslot : dbp.freeHardwareSlot with
        | some i =>
          refine Or.inr (Or.inr ?_)
          simp [Process.setBreakpoint, Process.writeSoftwareBreakpoint, hfb, hpc, hslot,
            freeHardwareSlot_tempCounter, freeHardwareSlot_userCounter]
        | none =>
          refine Or.inr (Or.inr ?_)
          simp [Process.setBreakpoint, Process.writeSoftwareBreakpoint, hfb, hpc, hslot,
            freeHardwareSlot_tempCounter, freeHardwareSlot_userCounter]

theorem setBreakpoint_preserves_nodup (dbp : Process) (tid addr : Nat) (temp : Bool)
    (h : (keysA dbp.Breakpoints).Nodup) :
    (keysA (dbp.setBreakpoint tid addr temp).2.Breakpoints).Nodup := by
  rcases setBreakpoint_shape dbp tid addr temp with
    ⟨bp0, _, heq⟩ | ⟨_, _, heq⟩ | ⟨bp, hfb, _, _, _, _, hbps, _, _, _, _⟩
  · rw [heq]
    exact h
  · rw [heq]
    exact h
  · rw [hbps, keysA_cons]
    refine List.nodup_cons.mpr ⟨?_, h⟩
    exact (lookupA_eq_none_iff _ _).mp ((findBreakpoint_eq_none_iff dbp addr).mp hfb).2

theorem isBreakpointExistsResult_of_ok {r : Except DbgError Breakpoint × Process}
    {bp : Breakpoint} (h : r.1 = .ok bp) : isBreakpointExistsResult r = false := by
  obtain ⟨r1, r2⟩ := r
  cases h
  rfl

theorem ClearBreakpoint_found (p : Process) (addr : Nat) (bp : Breakpoint)
    (h : lookupA p.Breakpoints addr = some bp) :
    (p.ClearBreakpoint addr).1 = .ok bp
    ∧ (p.ClearBreakpoint addr).2.Breakpoints = eraseA p.Breakpoints addr
    ∧ (p.ClearBreakpoint addr).2.mem
        = (if bp.hardware then p.mem else writeMem p.mem bp.Addr bp.OriginalData) := by
  unfold Process.ClearBreakpoint Process.clearBreakpoint Breakpoint.Clear
  cases hw : bp.hardware <;> simp [h, hw]

theorem ClearBreakpoint_counters (p : Process) (addr : Nat) :
    (p.ClearBreakpoint addr).2.breakpointIDCounter = p.breakpointIDCounter
    ∧ (p.ClearBreakpoint addr).2.tempBreakpointIDCounter = p.tempBreakpointIDCounter := by
  unfold Process.ClearBreakpoint Process.clearBreakpoint Breakpoint.Clear
  cases hl : lookupA p.Breakpoints addr with
  | none => simp
  | some bp => cases hw : bp.hardware <;> simp [hw]

theorem clearTempLoop_no_temp (l : List (Nat × Breakpoint)) :
    ∀ (p : Process), (keysA p.Breakpoints).Nodup → (keysA l).Nodup →
      (∀ e ∈ l, e ∈ p.Breakpoints) →
      (∀ e ∈ p.Breakpoints, e.2.Temp = true → e.1 ∈ keysA l) →
      ∀ e ∈ (p.clearTempLoop l).2.Breakpoints, e.2.Temp = false := by
  induction l with
  | nil =>
    intro p _ _ _ htemp e he
    cases hb : e.2.Temp with
    | false => rfl
    | true => exact absurd (htemp e he hb) (List.not_mem_nil _)
  | cons hd rest ih =>
    intro p hnp hnl hsub htemp e he
    obtain ⟨a, b⟩ := hd
    rw [keysA_cons, List.nodup_cons] at hnl
    have hmem : (a, b) ∈ p.Breakpoints := hsub (a, b) (List.mem_cons_self _ _)
    have hlk : lookupA p.Breakpoints a = some b := lookupA_of_mem_nodup hnp hmem
    cases hb : b.Temp with
    | false =>
      rw [Process.clearTempLoop, hb] at he
      simp only [Bool.false_eq_true, if_false] at he
      refine ih p hnp hnl.2 (fun e1 he1 => hsub e1 (List.mem_cons_of_mem _ he1)) ?_ e he
      intro e1 he1 ht1
      rcases List.mem_cons.mp (htemp e1 he1 ht1) with h1 | h1
      · exfalso
        have : lookupA p.Breakpoints e1.1 = some e1.2 := lookupA_of_mem_nodup hnp he1
        rw [h1, hlk] at this
        have hbe : b = e1.2 := Option.some.inj this
        rw [← hbe] at ht1
        rw [hb] at ht1
        exact Bool.false_ne_true ht1
      · exact h1
    | true =>
      rw [Process.clearTempLoop, hb] at he
      simp only [if_true] at he
      obtain ⟨hok, hbps, _⟩ := ClearBreakpoint_found p a b hlk
      rcases hres : p.ClearBreakpoint a with ⟨r1, r2⟩
      rw [hres] at hok hbps he
      simp only at hok hbps
      rw [hok] at he
      simp only at he
      refine ih r2 ?_ hnl.2 ?_ ?_ e he
      · rw [hbps]
        exact keysA_eraseA_nodup hnp
      · intro e1 he1
        rw [hbps]
        refine mem_eraseA.mpr ⟨hsub e1 (List.mem_cons_of_mem _ he1), ?_⟩
        intro hcontra
        apply hnl.1
        rw [← hcontra]
        exact List.mem_map_of_mem (fun x => x.1) he1
      · intro e1 he1 ht1
        rw [hbps] at he1
        obtain ⟨he1p, hne1⟩ := mem_eraseA.mp he1
        rcases List.mem_cons.mp (htemp e1 he1p ht1) with h1 | h1
        · exact absurd h1 hne1
        · exact h1

theorem clearTempBreakpoints_no_temp (p : Process)
    (h : (keysA p.Breakpoints).Nodup) :
    ∀ e ∈ p.clearTempBreakpoints.2.Breakpoints, e.2.Temp = false :=
  clearTempLoop_no_temp p.Breakpoints p h h (fun _ he => he)
    (fun e he _ => List.mem_map_of_mem (fun x => x.1) he)

theorem run_state_breakpoints (dbp : Process)
    (fn : Process → Option DbgError × Process) (h : dbp.exited = false) :
    (dbp.run fn).2.Breakpoints = (fn dbp.runPrelude).2.Breakpoints := by
  unfold Process.run
  rw [if_neg (by simp [h])]
  rcases hr : fn dbp.runPrelude with ⟨r1, r2⟩
  cases r1 with
  | none => simp [hr]
  | some e => cases e <;> simp [hr]

theorem next_no_temp (p : Process) (body : Process → Option DbgError × Process)
    (h : (keysA (body p).2.Breakpoints).Nodup) :
    ∀ e ∈ (p.next body).2.Breakpoints, e.2.Temp = false := by
  unfold Process.next
  rcases hb : body p with ⟨e1, q⟩
  rw [hb] at h
  cases e1 with
  | some err =>
    simp only [hb]
    exact clearTempBreakpoints_no_temp q h
  | none =>
    simp only [hb]
    exact clearTempBreakpoints_no_temp q.Halt.2 h

/-- C1: for every invocation of `Next` on a live process, whether it
returns successfully or with an error, no breakpoint with the `Temp` flag
set remains in the breakpoint table afterwards: the deferred
`clearTempBreakpoints` runs on every exit path of `next`.  The body of
`next` is quantified over every state transformer that keeps the
breakpoint table a valid map (Go maps always have unique keys). -/
theorem Next_clears_temporary_breakpoints (dbp : Process)
    (body : Process → Option DbgError × Process)
    (hlive : dbp.exited = false)
    (hnodup : (keysA dbp.Breakpoints).Nodup)
    (hbody : ∀ p, (keysA p.Breakpoints).Nodup →
      (keysA (body p).2.Breakpoints).Nodup) :
    ∀ e ∈ (dbp.Next body).2.Breakpoints, e.2.Temp = false := by
  intro e he
  rw [Process.Next, run_state_breakpoints dbp _ hlive] at he
  exact next_no_temp dbp.runPrelude body (hbody dbp.runPrelude hnodup) e he

/-- C1 witness: a `Next` whose body installs a temporary breakpoint at
address 100 and then fails still leaves no temporary breakpoint in the
table. -/
theorem Next_clears_temporary_breakpoints_witness :
    ((testProcess.Next tempThenFailBody).2.Breakpoints.all fun e => !e.2.Temp) = true := by
  have h := Next_clears_temporary_breakpoints testProcess tempThenFailBody rfl (by decide)
    (fun p hp => setBreakpoint_preserves_nodup p
      (match p.CurrentThread with | some tid => tid | none => 0) 100 true hp)
  rw [List.all_eq_true]
  intro e he
  simp [h e he]

/-- C2 counterexample: with breakpoint size 1 and a breakpoint installed
at address 100, `setBreakpoint(101)` fails with `BreakpointExists` even
though 101 is not a key of the breakpoint table, because the duplicate
check goes through `FindBreakpoint`, which also matches
`addr - breakpoint_size`. -/
theorem setBreakpoint_exists_error_without_table_key :
    isBreakpointExistsResult (testProcessWithBp.setBreakpoint 1 101 false) = true
    ∧ lookupA testProcessWithBp.Breakpoints 101 = none := by
  constructor <;> decide

/-- C2 amended: `setBreakpoint(addr, temp)` fails with
`BreakpointExists` exactly when `FindBreakpoint(addr)` hits — that is,
when `addr` or `addr - breakpoint_size` is a key of the breakpoint
table; since in particular every key of the table is rejected, a
successful `setBreakpoint` keeps the table's keys unique, so two
breakpoints never share an address. -/
theorem setBreakpoint_duplicate_check_via_FindBreakpoint (dbp : Process)
    (tid addr : Nat) (temp : Bool)
    (hnodup : (keysA dbp.Breakpoints).Nodup) :
    (isBreakpointExistsResult (dbp.setBreakpoint tid addr temp) = true ↔
      usub64 addr dbp.archBreakpointSize ∈ keysA dbp.Breakpoints
      ∨ addr ∈ keysA dbp.Breakpoints)
    ∧ ∀ bp, (dbp.setBreakpoint tid addr temp).1 = .ok bp →
        (keysA (dbp.setBreakpoint tid addr temp).2.Breakpoints).Nodup := by
  refine ⟨?_, fun bp _ => setBreakpoint_preserves_nodup dbp tid addr temp hnodup⟩
  rcases setBreakpoint_shape dbp tid addr temp with
    ⟨bp0, hfb, heq⟩ | ⟨hfb, _, heq⟩ | ⟨bp, hfb, hok, _⟩
  · rw [heq]
    simp only [isBreakpointExistsResult, true_iff]
    exact (findBreakpoint_isSome_iff dbp addr).mp (by simp [hfb])
  · rw [heq]
    have hns := (findBreakpoint_eq_none_iff dbp addr).mp hfb
    simp only [isBreakpointExistsResult, Bool.false_eq_true, false_iff]
    rintro (h | h)
    · exact (lookupA_eq_none_iff _ _).mp hns.1 h
    · exact (lookupA_eq_none_iff _ _).mp hns.2 h
  · rw [isBreakpointExistsResult_of_ok hok]
    have hns := (findBreakpoint_eq_none_iff dbp addr).mp hfb
    simp only [Bool.false_eq_true, false_iff]
    rintro (h | h)
    · exact (lookupA_eq_none_iff _ _).mp hns.1 h
    · exact (lookupA_eq_none_iff _ _).mp hns.2 h

/-- C2 witness: the amended duplicate-check characterization applied to
the fixture process at a fresh address. -/
theorem setBreakpoint_duplicate_check_via_FindBreakpoint_witness :
    (isBreakpointExistsResult (testProcessWithBp.setBreakpoint 1 50 false) = true ↔
      usub64 50 testProcessWithBp.archBreakpointSize ∈ keysA testProcessWithBp.Breakpoints
      ∨ 50 ∈ keysA testProcessWithBp.Breakpoints)
    ∧ ∀ bp, (testProcessWithBp.setBreakpoint 1 50 false).1 = .ok bp →
        (keysA (testProcessWithBp.setBreakpoint 1 50 false).2.Breakpoints).Nodup :=
  setBreakpoint_duplicate_check_via_FindBreakpoint testProcessWithBp 1 50 false (by decide)

/-- C3: when `set_breakpoint(addr)` succeeds with a software breakpoint,
the original instruction bytes are saved in the breakpoint record, and
the subsequent `clear_breakpoint(addr)` writes them back, restoring every
byte of target memory to its value before the set. -/
theorem setBreakpoint_clearBreakpoint_restores_original_bytes (dbp : Process)
    (tid addr : Nat) (temp : Bool) (bp : Breakpoint)
    (hlen : dbp.archBreakpointInstruction.length = dbp.archBreakpointSize)
    (hok : (dbp.setBreakpoint tid addr temp).1 = .ok bp)
    (hsw : bp.hardware = false) :
    bp.OriginalData = readMem dbp.mem addr dbp.archBreakpointSize
    ∧ ∀ a, ((dbp.setBreakpoint tid addr temp).2.ClearBreakpoint addr).2.mem a
        = dbp.mem a := by
  rcases setBreakpoint_shape dbp tid addr temp with
    ⟨bp0, _, heq⟩ | ⟨_, _, heq⟩ |
    ⟨bp1, _, hok1, _, haddr, _, hbps, _, _, hswfacts, _⟩
  · rw [heq] at hok
    exact absurd hok (by simp)
  · rw [heq] at hok
    exact absurd hok (by simp)
  · have hbp : bp1 = bp := by
      rw [hok1] at hok
      exact Except.ok.inj hok
    subst hbp
    obtain ⟨horig, hmem⟩ := hswfacts hsw
    refine ⟨horig, fun a => ?_⟩
    have hlk : lookupA (dbp.setBreakpoint tid addr temp).2.Breakpoints addr
        = some bp1 := by
      rw [hbps]
      simp [lookupA]
    obtain ⟨_, _, hclearmem⟩ := ClearBreakpoint_found _ addr bp1 hlk
    rw [hclearmem, if_neg (by simp [hsw]), hmem, horig, haddr]
    exact writeMem_roundtrip dbp.mem addr dbp.archBreakpointInstruction
      dbp.archBreakpointSize hlen a

/-- C3 witness: on the darwin fixture (software fallback), setting and
clearing a breakpoint at address 100 restores the byte at 100. -/
theorem setBreakpoint_clearBreakpoint_restores_original_bytes_witness :
    ((testProcessDarwin.setBreakpoint 1 100 false).2.ClearBreakpoint 100).2.mem 100
      = testProcessDarwin.mem 100 :=
  (setBreakpoint_clearBreakpoint_restores_original_bytes testProcessDarwin 1 100 false
    { FunctionName := "main.main"
      File := "main.go"
      Line := 10
      Addr := 100
      OriginalData := [107]
      ID := 1
      Temp := false
      Tracepoint := false
      Stacktrace := 0
      Goroutine := false
      Variables := []
      hardware := false
      reg := 0 }
    rfl rfl rfl).2 100

/-- C4: the breakpoint lookup for a stopped PC first consults the table
at `pc - breakpoint_size` (software case) and only on a miss consults
`pc` itself (hardware case), and it reports a hit exactly when one of the
two addresses is a key of the table. -/
theorem FindBreakpoint_tries_software_address_then_pc (dbp : Process) (pc : Nat) :
    ((dbp.FindBreakpoint pc).isSome = true ↔
      usub64 pc dbp.archBreakpointSize ∈ keysA dbp.Breakpoints
      ∨ pc ∈ keysA dbp.Breakpoints)
    ∧ (∀ bp, lookupA dbp.Breakpoints (usub64 pc dbp.archBreakpointSize) = some bp →
        dbp.FindBreakpoint pc = some bp)
    ∧ (lookupA dbp.Breakpoints (usub64 pc dbp.archBreakpointSize) = none →
        dbp.FindBreakpoint pc = lookupA dbp.Breakpoints pc) := by
  refine ⟨findBreakpoint_isSome_iff dbp pc, ?_, ?_⟩
  · intro bp h
    unfold Process.FindBreakpoint
    rw [h]
  · intro h
    unfold Process.FindBreakpoint
    rw [h]

/-- C4 witness: with a breakpoint at 100 and breakpoint size 1, a stop at
PC 101 resolves to the breakpoint installed at 100. -/
theorem FindBreakpoint_tries_software_address_then_pc_witness :
    testProcessWithBp.FindBreakpoint 101 = some (testBreakpoint 100 1 false) :=
  (FindBreakpoint_tries_software_address_then_pc testProcessWithBp 101).2.1
    (testBreakpoint 100 1 false) (by decide)

theorem userIDs_append (l1 l2 : List (Int × Bool)) :
    userIDs (l1 ++ l2) = userIDs l1 ++ userIDs l2 := by
  simp [userIDs, List.filter_append]

theorem tempIDs_append (l1 l2 : List (Int × Bool)) :
    tempIDs (l1 ++ l2) = tempIDs l1 ++ tempIDs l2 := by
  simp [tempIDs, List.filter_append]

theorem bpIdInvariant_apply (s : Process × List (Int × Bool)) (op : BpOp)
    (h : bpIdInvariant s) : bpIdInvariant (applyBpOp s op) := by
  obtain ⟨p, log⟩ := s
  obtain ⟨h1, h2, h3, h4⟩ := h
  simp only at h1 h2 h3 h4
  cases op with
  | clear addr =>
    refine ⟨?_, ?_, h3, h4⟩
    · intro i hi
      simp only [applyBpOp]
      rw [(ClearBreakpoint_counters p addr).1]
      exact h1 i hi
    · intro i hi
      simp only [applyBpOp]
      rw [(ClearBreakpoint_counters p addr).2]
      exact h2 i hi
  | set tid addr temp =>
    rcases hr : p.setBreakpoint tid addr temp with ⟨r1, r2⟩
    cases r1 with
    | error err =>
      have hst : r2 = p := by
        rcases setBreakpoint_shape p tid addr temp with
          ⟨bp0, _, heq⟩ | ⟨_, _, heq⟩ | ⟨bp, _, hok, _⟩
        · rw [heq] at hr
          exact (Prod.mk.inj hr.symm).2
        · rw [heq] at hr
          exact (Prod.mk.inj hr.symm).2
        · rw [hr] at hok
          exact absurd hok (by simp)
      subst hst
      simp only [applyBpOp, hr]
      exact ⟨h1, h2, h3, h4⟩
    | ok bp =>
      rcases setBreakpoint_shape p tid addr temp with
        ⟨bp0, _, heq⟩ | ⟨_, _, heq⟩ |
        ⟨bp1, _, hok, htempeq, _, hid, _, hbc, htc, _, _⟩
      · rw [heq] at hr
        exact absurd (Prod.mk.inj hr.symm).1 (by simp)
      · rw [heq] at hr
        exact absurd (Prod.mk.inj hr.symm).1 (by simp)
      · have hbp : bp = bp1 := by
          rw [hr] at hok
          exact Except.ok.inj hok
        subst hbp
        rw [hr] at hbc htc
        simp only at hbc htc
        simp only [applyBpOp, hr]
        cases temp with
        | true =>
          rw [if_pos rfl] at hid hbc htc
          refine ⟨?_, ?_, ?_, ?_⟩
          · intro i hi
            rw [userIDs_append, htempeq] at hi
            rcases List.mem_append.mp hi with hi1 | hi1
            · rw [hbc]
              exact h1 i hi1
            · simp [userIDs] at hi1
          · intro i hi
            rw [tempIDs_append, htempeq] at hi
            rcases List.mem_append.mp hi with hi1 | hi1
            · rw [htc]
              exact le_trans (h2 i hi1) (by omega)
            · simp [tempIDs] at hi1
              rw [hi1, hid, htc]
          · rw [userIDs_append, htempeq]
            simpa [userIDs] using h3
          · rw [tempIDs_append, htempeq]
            refine List.pairwise_append.mpr ⟨h4, ?_, ?_⟩
            · simp [tempIDs]
            · intro x hx y hy
              simp [tempIDs] at hy
              rw [hy, hid]
              have := h2 x hx
              omega
        | false =>
          rw [if_neg (by simp)] at hid hbc htc
          refine ⟨?_, ?_, ?_, ?_⟩
          · intro i hi
            rw [userIDs_append, htempeq] at hi
            rcases List.mem_append.mp hi with hi1 | hi1
            · rw [hbc]
              exact le_trans (h1 i hi1) (by omega)
            · simp [userIDs] at hi1
              rw [hi1, hid, hbc]
          · intro i hi
            rw [tempIDs_append, htempeq] at hi
            rcases List.mem_append.mp hi with hi1 | hi1
            · rw [htc]
              exact h2 i hi1
            · simp [tempIDs] at hi1
          · rw [userIDs_append, htempeq]
            refine List.pairwise_append.mpr ⟨h3, ?_, ?_⟩
            · simp [userIDs]
            · intro x hx y hy
              simp [userIDs] at hy
              rw [hy, hid]
              have := h1 x hx
              omega
          · rw [tempIDs_append, htempeq]
            simpa [tempIDs] using h4

theorem applyBpOp_counters_mono (s : Process × List (Int × Bool)) (op : BpOp) :
    s.1.breakpointIDCounter ≤ (applyBpOp s op).1.breakpointIDCounter
    ∧ s.1.tempBreakpointIDCounter ≤ (applyBpOp s op).1.tempBreakpointIDCounter := by
  obtain ⟨p, log⟩ := s
  cases op with
  | clear addr =>
    simp only [applyBpOp]
    rw [(ClearBreakpoint_counters p addr).1, (ClearBreakpoint_counters p addr).2]
    exact ⟨le_refl _, le_refl _⟩
  | set tid addr temp =>
    rcases hr : p.setBreakpoint tid addr temp with ⟨r1, r2⟩
    have hcnt : p.breakpointIDCounter ≤ r2.breakpointIDCounter
        ∧ p.tempBreakpointIDCounter ≤ r2.tempBreakpointIDCounter := by
      rcases setBreakpoint_shape p tid addr temp with
        ⟨bp0, _, heq⟩ | ⟨_, _, heq⟩ | ⟨bp1, _, _, _, _, _, _, hbc, htc, _, _⟩
      · rw [heq] at hr
        rw [(Prod.mk.inj hr.symm).2]
        exact ⟨le_refl _, le_refl _⟩
      · rw [heq] at hr
        rw [(Prod.mk.inj hr.symm).2]
        exact ⟨le_refl _, le_refl _⟩
      · rw [hr] at hbc htc
        simp only at hbc htc
        rw [hbc, htc]
        cases temp <;> simp
    cases r1 with
    | error err =>
      simp only [applyBpOp, hr]
      exact hcnt
    | ok bp =>
      simp only [applyBpOp, hr]
      exact hcnt

theorem foldl_bpIdInvariant (ops : List BpOp) :
    ∀ s, bpIdInvariant s → bpIdInvariant (ops.foldl applyBpOp s) := by
  induction ops with
  | nil => exact fun _ h => h
  | cons op rest ih => exact fun s h => ih _ (bpIdInvariant_apply s op h)

theorem foldl_counters_mono (ops : List BpOp) :
    ∀ s, s.1.breakpointIDCounter ≤ (ops.foldl applyBpOp s).1.breakpointIDCounter
      ∧ s.1.tempBreakpointIDCounter ≤ (ops.foldl applyBpOp s).1.tempBreakpointIDCounter := by
  induction ops with
  | nil => exact fun _ => ⟨le_refl _, le_refl _⟩
  | cons op rest ih =>
    intro s
    obtain ⟨ha, hb⟩ := applyBpOp_counters_mono s op
    obtain ⟨hc, hd⟩ := ih (applyBpOp s op)
    exact ⟨le_trans ha hc, le_trans hb hd⟩

/-- C5: over any sequence of breakpoint-manager operations, the user and
temporary ID counters never decrease, and the breakpoints created during
the sequence have pairwise distinct IDs within each domain — no two user
breakpoints share an ID and no two temporary breakpoints share an ID. -/
theorem breakpoint_ids_unique_per_domain (p : Process) (ops : List BpOp) :
    p.breakpointIDCounter ≤ (runBpOps p ops).1.breakpointIDCounter
    ∧ p.tempBreakpointIDCounter ≤ (runBpOps p ops).1.tempBreakpointIDCounter
    ∧ (userIDs (runBpOps p ops).2).Nodup
    ∧ (tempIDs (runBpOps p ops).2).Nodup := by
  have hinv := foldl_bpIdInvariant ops (p, [])
    ⟨fun i hi => by simp [userIDs] at hi, fun i hi => by simp [tempIDs] at hi,
      List.Pairwise.nil, List.Pairwise.nil⟩
  obtain ⟨_, _, i3, i4⟩ := hinv
  obtain ⟨m1, m2⟩ := foldl_counters_mono ops (p, [])
  exact ⟨m1, m2, i3.imp (fun h => ne_of_lt h), i4.imp (fun h => ne_of_lt h)⟩

/-- C6 counterexample: on a live process, `Continue` that ends because a
manual stop was requested returns success — the `ManualStopError`
produced by the wait (first conjunct) is swallowed by `run` rather than
surfaced (second conjunct). -/
theorem Continue_manual_stop_not_surfaced :
    (testProcess.resume .manualStop).1 = some .ManualStopError
    ∧ (testProcess.Continue .manualStop).1 = none
    ∧ testProcess.exited = false :=
  ⟨rfl, rfl, rfl⟩

/-- C6 amended: the `run` wrapper around every engine operation swallows
exactly `ManualStopError` — when the wrapped operation ends with a manual
stop the caller sees success, and every other error is surfaced
unchanged. -/
theorem run_swallows_only_manual_stop (dbp : Process)
    (fn : Process → Option DbgError × Process) (h : dbp.exited = false) :
    (dbp.run fn).1 = (match (fn dbp.runPrelude).1 with
      | some .ManualStopError => none
      | some e => some e
      | none => none) := by
  unfold Process.run
  rw [if_neg (by simp [h])]
  rcases hr : fn dbp.runPrelude with ⟨r1, r2⟩
  cases r1 with
  | none => simp [hr]
  | some e => cases e <;> simp [hr]

/-- C6 amended witness: a body ending in `ThreadExitedErr` has its error
surfaced by `run` on the fixture process. -/
theorem run_swallows_only_manual_stop_witness :
    (testProcess.run threadExitedBody).1
      = (match (threadExitedBody testProcess.runPrelude).1 with
        | some .ManualStopError => none
        | some e => some e
        | none => none) :=
  run_swallows_only_manual_stop testProcess threadExitedBody rfl

/-- C7: launching a target whose `main` returns 0 and continuing to
completion yields an error of the `ProcessExitedError` (TargetExited)
kind whose status is 0 and whose pid is the launched pid. -/
theorem Continue_target_exit_status_and_pid (childPid : Nat) :
    ((Launch childPid).Continue (.exited 0)).1
      = some (.ProcessExitedError childPid 0) := rfl

theorem run_state_threads (dbp : Process)
    (fn : Process → Option DbgError × Process) (h : dbp.exited = false) :
    (dbp.run fn).2.Threads = (fn dbp.runPrelude).2.Threads := by
  unfold Process.run
  rw [if_neg (by simp [h])]
  rcases hr : fn dbp.runPrelude with ⟨r1, r2⟩
  cases r1 with
  | none => simp [hr]
  | some e => cases e <;> simp [hr]

/-- C8: one `Step` operation issues exactly one step command to every
thread whose `blocked()` heuristic is false and no step command to a
blocked thread: afterwards each thread's received-step count has grown by
one if and only if it was not blocked. -/
theorem Step_steps_exactly_nonblocked_threads (dbp : Process) (tid : Nat)
    (th : Thread) (hlive : dbp.exited = false)
    (hmem : (tid, th) ∈ dbp.Threads) :
    ∃ th1, (tid, th1) ∈ dbp.Step.2.Threads
      ∧ th1.stepCount = th.stepCount + (if th.blocked then 0 else 1) := by
  have hT : dbp.Step.2.Threads
      = (dbp.Threads.map
          (fun (e : Nat × Thread) => (e.1, { e.2 with CurrentBreakpoint := none }))).map
          (fun (e : Nat × Thread) => if e.2.blocked then e else (e.1, e.2.Step)) := by
    rw [Process.Step, run_state_threads dbp _ hlive]
    rfl
  refine ⟨if th.blocked then { th with CurrentBreakpoint := none }
          else ({ th with CurrentBreakpoint := none }).Step, ?_, ?_⟩
  · rw [hT]
    have h1 := List.mem_map_of_mem
      (fun (e : Nat × Thread) => (e.1, { e.2 with CurrentBreakpoint := none })) hmem
    have h2 := List.mem_map_of_mem
      (fun (e : Nat × Thread) => if e.2.blocked then e else (e.1, e.2.Step)) h1
    cases hb : th.blocked <;> simpa [hb] using h2
  · cases hb : th.blocked <;> simp [hb, Thread.Step]

/-- C8 witness: the non-blocked thread 1 of the fixture process receives
exactly one step command. -/
theorem Step_steps_exactly_nonblocked_threads_witness :
    ∃ th1, (1, th1) ∈ testProcess.Step.2.Threads
      ∧ th1.stepCount = (testThread 1 false).stepCount
          + (if (testThread 1 false).blocked then 0 else 1) :=
  Step_steps_exactly_nonblocked_threads testProcess 1 (testThread 1 false) rfl
    (by decide)

/-- C9 counterexample: starting from the engine's own thread operations
(two threads added, thread 2 selected), the wait-loop removal of exited
thread 2 leaves `current_thread` pointing outside the threads map — the
removal path does not preserve the membership invariant. -/
theorem waitRemove_breaks_current_thread_membership :
    testProcessTwoThreads.currentThreadOK = true
    ∧ (testProcessTwoThreads.waitRemoveExitedThread 2).currentThreadOK = false := by
  constructor <;> rfl

theorem currentThreadOK_iff (dbp : Process) :
    dbp.currentThreadOK = true ↔
      ∀ t, dbp.CurrentThread = some t → (lookupA dbp.Threads t).isSome = true := by
  unfold Process.currentThreadOK
  cases hc : dbp.CurrentThread with
  | none => simp
  | some t => simp

theorem addThread_characterization (dbp : Process) (tid : Nat) (attach : Bool) :
    (dbp.addThread tid attach).2 = dbp
    ∨ ∃ nt,
        (dbp.addThread tid attach).2.Threads = (tid, nt) :: dbp.Threads
        ∧ ((dbp.addThread tid attach).2.CurrentThread = some tid
           ∨ (dbp.addThread tid attach).2.CurrentThread = dbp.CurrentThread) := by
  unfold Process.addThread
  cases hl : lookupA dbp.Threads tid with
  | some th => exact Or.inl rfl
  | none =>
    cases hc : dbp.CurrentThread with
    | none =>
      exact Or.inr ⟨⟨tid, none, false, false, false, 0⟩, rfl, Or.inl rfl⟩
    | some t =>
      exact Or.inr ⟨⟨tid, none, false, false, false, 0⟩, rfl, Or.inr rfl⟩

/-- C9 amended: `addThread` and `SwitchThread` preserve the membership of
`current_thread` in the threads map unconditionally, and the wait-loop
removal of an exited thread preserves it exactly when the removed thread
is not the current thread. -/
theorem thread_ops_preserve_current_membership (dbp : Process) (tid : Nat)
    (attach : Bool) (h : dbp.currentThreadOK = true) :
    (dbp.addThread tid attach).2.currentThreadOK = true
    ∧ (dbp.SwitchThread tid).2.currentThreadOK = true
    ∧ (dbp.CurrentThread ≠ some tid →
        (dbp.waitRemoveExitedThread tid).currentThreadOK = true) := by
  refine ⟨?_, ?_, ?_⟩
  · rcases addThread_characterization dbp tid attach with heq | ⟨nt, hthreads, hcur⟩
    · rw [heq]
      exact h
    · rw [currentThreadOK_iff] at h ⊢
      intro t ht
      rw [hthreads]
      rcases hcur with hcur | hcur
      · rw [hcur] at ht
        obtain rfl : tid = t := Option.some.inj ht
        simp [lookupA]
      · rw [hcur] at ht
        have hh := h t ht
        simp only [lookupA]
        by_cases htid : tid = t
        · simp [htid]
        · rw [if_neg htid]
          exact hh
  · unfold Process.SwitchThread
    cases hl : lookupA dbp.Threads tid with
    | some th => simp [Process.currentThreadOK, hl]
    | none => simpa using h
  · intro hne
    unfold Process.waitRemoveExitedThread Process.currentThreadOK
    cases hc : dbp.CurrentThread with
    | none => rfl
    | some t =>
      have ht : t ≠ tid := fun he => hne (by rw [hc, he])
      simp only
      rw [lookupA_eraseA_ne _ _ _ ht]
      unfold Process.currentThreadOK at h
      rw [hc] at h
      exact h

/-- C9 amended witness: the preservation statement applied to the fixture
process and a fresh thread id. -/
theorem thread_ops_preserve_current_membership_witness :
    (testProcess.addThread 5 false).2.currentThreadOK = true
    ∧ (testProcess.SwitchThread 5).2.currentThreadOK = true
    ∧ (testProcess.CurrentThread ≠ some 5 →
        (testProcess.waitRemoveExitedThread 5).currentThreadOK = true) :=
  thread_ops_preserve_current_membership testProcess 5 false (by decide)

/-- C10: a location string without a colon that names no function but
parses as an unsigned integer (base 0: decimal, 0x-prefixed, or octal)
never fails: `FindLocation` first searches the breakpoint table for a
breakpoint whose ID equals the number and returns its address, and only
when no breakpoint has that ID returns the number itself as a raw
address. -/
theorem FindLocation_numeric_lookup (dbp : Process) (str : String) (id : Nat)
    (hcolon : containsRune str ':' = false)
    (hfn : dbp.lookupFunc str = none)
    (hnum : goParseUint0 str = some id) :
    (∃ a, dbp.FindLocation str = .ok a)
    ∧ ((∀ e ∈ dbp.Breakpoints, intToUInt64 e.2.ID ≠ id) →
        dbp.FindLocation str = .ok id)
    ∧ ((∃ e ∈ dbp.Breakpoints, intToUInt64 e.2.ID = id) →
        ∃ e ∈ dbp.Breakpoints, intToUInt64 e.2.ID = id
          ∧ dbp.FindLocation str = .ok e.2.Addr) := by
  have hred : dbp.FindLocation str
      = (match dbp.Breakpoints.find? (fun e => intToUInt64 e.2.ID == id) with
        | some e => .ok e.2.Addr
        | none => .ok id) := by
    unfold Process.FindLocation
    rw [if_neg (by simp [hcolon]), hfn, hnum]
  cases hf : dbp.Breakpoints.find? (fun e => intToUInt64 e.2.ID == id) with
  | some e =>
    rw [hf] at hred
    simp only at hred
    have hmem := List.mem_of_find?_eq_some hf
    have heq : intToUInt64 e.2.ID = id := by simpa using List.find?_some hf
    refine ⟨⟨e.2.Addr, hred⟩, ?_, ?_⟩
    · intro hall
      exact absurd heq (hall e hmem)
    · intro _
      exact ⟨e, hmem, heq, hred⟩
  | none =>
    rw [hf] at hred
    simp only at hred
    have hnone := List.find?_eq_none.mp hf
    refine ⟨⟨id, hred⟩, fun _ => hred, ?_⟩
    rintro ⟨e, hmem, heq⟩
    exact absurd heq (by simpa using hnone e hmem)

/-- C10 witness: the string "1" resolves to the address of the breakpoint
whose ID is 1 on the fixture process. -/
theorem FindLocation_numeric_lookup_witness :
    ∃ e ∈ testProcessWithBp.Breakpoints, intToUInt64 e.2.ID = 1
      ∧ testProcessWithBp.FindLocation "1" = .ok e.2.Addr :=
  (FindLocation_numeric_lookup testProcessWithBp "1" 1 (by decide) rfl
    (by decide)).2.2 ⟨(100, testBreakpoint 100 1 false), by decide, by decide⟩

end Dbg
